import Mathlib

/-!
Verification development for the BizChat assistant (src/app/chatbot.py).

The core intent-matching engine is shallow-embedded here:

* A spaCy `Doc` is modelled by the text it was built from (`Doc := String`);
  the embedding model is an opaque external capability, so pattern/input
  similarity is an abstract parameter `sim : Doc → Doc → ℚ` of the matcher.
  Python floats are modelled by `ℚ`; only comparisons matter to the claims.
* The Unicode primitives used by `preprocess_input` (`str.lower`, `str.strip`,
  NFD decomposition, category `Mn`, `str.isalnum`, `str.isspace`) are modelled
  for the ASCII range plus the accented Spanish alphabet that the knowledge
  base and the claims exercise.
* `random.choice` is modelled by an index oracle `r : Nat` choosing
  `rs[r % rs.length]`; on an empty list it fails (Python raises IndexError),
  so `get_response` returns `Option`, `none` modelling an uncaught exception.
* `chatbot.py` defines `get_response` twice.  Python keeps the later
  definition (lines 184-211), embedded here as `get_response`; the earlier
  context-aware definition (lines 84-113), which it shadows, is embedded as
  `get_response_v1`.
-/

namespace BizChat

/-- A spaCy Doc, modelled by its text. -/
abbrev Doc := String

/-- Model of applying the nlp pipeline to a text, producing a Doc. -/
def nlp (text : String) : Doc := text

/-- Abstract similarity oracle, modelling spaCy Doc.similarity. -/
abbrev Sim := Doc → Doc → ℚ

/-- One conversation turn, as stored by add_to_history. -/
structure Turn where
  user : String
  bot : String
  deriving DecidableEq

/-- An intent record of the knowledge base.  `responses := none` models a
JSON object with no "responses" key (the code guards with
`'responses' in matched_intent`). -/
structure Intent where
  tag : String
  patterns : List String
  patterns_processed : List Doc
  responses : Option (List String)
  deriving DecidableEq

/-- The mutable per-session state of a Chatbot instance. -/
structure ChatbotState where
  intents : List Intent
  max_history : Nat
  conversation_history : List Turn
  deriving DecidableEq

/-- The constant 0.4 of find_most_similar_intent (chatbot.py line 171). -/
def similarity_threshold : ℚ := mkRat 2 5

/-- Model of Chatbot.preprocess_intents: patterns_processed becomes the list
of Docs of the raw patterns. -/
def preprocess_intents (intents : List Intent) : List Intent :=
  intents.map (fun intent => { intent with patterns_processed := intent.patterns.map nlp })

/-- ASCII model of Python str.isspace on one character. -/
def isSpaceB (c : Char) : Bool :=
  c.toNat == 32 || c.toNat == 9 || c.toNat == 10 || c.toNat == 13

/-- ASCII model of Python str.isalnum on one character. -/
def isAlnumB (c : Char) : Bool :=
  (48 ≤ c.toNat && c.toNat ≤ 57) || (65 ≤ c.toNat && c.toNat ≤ 90) ||
    (97 ≤ c.toNat && c.toNat ≤ 122)

/-- Model of unicodedata.category c == Mn: the combining diacritical block. -/
def isMnB (c : Char) : Bool := 768 ≤ c.toNat && c.toNat ≤ 879

/-- ASCII upper-case letter test (used only to state properties). -/
def isUpperB (c : Char) : Bool := 65 ≤ c.toNat && c.toNat ≤ 90

/-- Lower-casing table for the accented upper-case Spanish letters. -/
def accentPairs : List (Char × Char) :=
  [('Á', 'á'), ('É', 'é'), ('Í', 'í'), ('Ó', 'ó'), ('Ú', 'ú'), ('Ü', 'ü'), ('Ñ', 'ñ')]

/-- Model of Python str.lower on one character (ASCII plus accented letters). -/
def lowerChar (c : Char) : Char :=
  if 65 ≤ c.toNat ∧ c.toNat ≤ 90 then Char.ofNat (c.toNat + 32)
  else ((accentPairs.find? (fun p => p.1 == c)).map Prod.snd).getD c

/-- NFD decomposition table for the lower-case accented Spanish letters
(the upper-case ones are lower-cased before NFD runs in the pipeline). -/
def nfdPairs : List (Char × List Char) :=
  [('á', ['a', '́']), ('é', ['e', '́']), ('í', ['i', '́']),
   ('ó', ['o', '́']), ('ú', ['u', '́']), ('ü', ['u', '̈']),
   ('ñ', ['n', '̃'])]

/-- Model of unicodedata.normalize NFD on one character. -/
def nfdChar (c : Char) : List Char :=
  ((nfdPairs.find? (fun p => p.1 == c)).map Prod.snd).getD [c]

/-- Model of Python str.strip: drop whitespace at both ends. -/
def stripChars (l : List Char) : List Char :=
  ((l.dropWhile isSpaceB).reverse.dropWhile isSpaceB).reverse

/-- The text computed by Chatbot.preprocess_input (chatbot.py lines 120-139):
lower-case, strip, NFD then drop combining marks, keep alnum/whitespace. -/
def preprocess_text (user_input : String) : String :=
  ⟨(((stripChars (user_input.data.map lowerChar)).flatMap nfdChar).filter
      (fun c => !(isMnB c))).filter (fun c => isAlnumB c || isSpaceB c)⟩

/-- Chatbot.preprocess_input: the Doc of the normalized text. -/
def preprocess_input (user_input : String) : Doc := nlp (preprocess_text user_input)

/-- One update of (best_similarity, best_intent) inside the scan loop of
find_most_similar_intent (chatbot.py lines 151-164). -/
def matchStep (sim : Sim) (processed_input : Doc) (intent : Intent)
    (best : ℚ × Option Intent) (pattern_doc : Doc) : ℚ × Option Intent :=
  if sim processed_input pattern_doc > best.1 then (sim processed_input pattern_doc, some intent)
  else best

/-- The nested scan over intents and their precomputed patterns, starting from
best_similarity = 0.0 and best_intent = None. -/
def scanIntents (sim : Sim) (processed_input : Doc) (intents : List Intent) :
    ℚ × Option Intent :=
  List.foldl
    (fun best intent => List.foldl (matchStep sim processed_input intent) best
      intent.patterns_processed)
    ((0 : ℚ), (none : Option Intent)) intents

/-- Chatbot.find_most_similar_intent (chatbot.py lines 141-182): scan all
patterns, then, when best_similarity < 0.4, return the first intent tagged
fallback if any; in all remaining cases fall through to best_intent. -/
def find_most_similar_intent (sim : Sim) (intents : List Intent)
    (processed_input : Doc) : Option Intent :=
  if (scanIntents sim processed_input intents).1 < similarity_threshold then
    match List.find? (fun intent => intent.tag == "fallback") intents with
    | some fb => some fb
    | none => (scanIntents sim processed_input intents).2
  else
    (scanIntents sim processed_input intents).2

/-- Appending to a collections.deque with maxlen: the oldest entries are
evicted once the length would exceed maxlen. -/
def appendBounded (maxlen : Nat) (history : List Turn) (t : Turn) : List Turn :=
  if maxlen < (history ++ [t]).length then
    (history ++ [t]).drop ((history ++ [t]).length - maxlen)
  else history ++ [t]

/-- Chatbot.add_to_history (chatbot.py lines 55-62). -/
def add_to_history (s : ChatbotState) (user_message bot_response : String) : ChatbotState :=
  { s with conversation_history :=
      appendBounded s.max_history s.conversation_history ⟨user_message, bot_response⟩ }

/-- Chatbot.get_contextual_input (chatbot.py lines 64-82). -/
def get_contextual_input (s : ChatbotState) (user_input : String) : String :=
  if s.conversation_history = [] then user_input
  else
    String.intercalate "\n"
        (s.conversation_history.flatMap
          (fun t => ["Usuario: " ++ t.user, "Asistente: " ++ t.bot]))
      ++ "\nUsuario: " ++ user_input

/-- Model of random.choice with index oracle r; none on an empty list
(Python raises IndexError there). -/
def randChoice (r : Nat) (l : List String) : Option String := l[r % l.length]?

/-- The fixed empty-input prompt (chatbot.py line 196). -/
def prompt_msg : String := "Por favor, escribe algo."

/-- The generic apology safeguard (chatbot.py line 211). -/
def apology_msg : String := "Lo siento, no estoy seguro de cómo responder a eso."

/-- The effective Chatbot.get_response: the second definition at chatbot.py
lines 184-211, which Python keeps.  It matches the plain processed input and
never touches the conversation history (the state is returned unchanged). -/
def get_response (sim : Sim) (r : Nat) (s : ChatbotState) (user_input : String) :
    Option (String × ChatbotState) :=
  if user_input = "" then some (prompt_msg, s)
  else
    match find_most_similar_intent sim s.intents (preprocess_input user_input) with
    | some intent =>
      match intent.responses with
      | some rs => (randChoice r rs).map (fun resp => (resp, s))
      | none => some (apology_msg, s)
    | none => some (apology_msg, s)

/-- The shadowed context-aware Chatbot.get_response at chatbot.py lines
84-113: it matches the preprocessed contextual input and records the turn
in the history on every non-empty input. -/
def get_response_v1 (sim : Sim) (r : Nat) (s : ChatbotState) (user_input : String) :
    Option (String × ChatbotState) :=
  if user_input = "" then some (prompt_msg, s)
  else
    match find_most_similar_intent sim s.intents
        (preprocess_input (get_contextual_input s user_input)) with
    | some intent =>
      match intent.responses with
      | some rs => (randChoice r rs).map (fun resp => (resp, add_to_history s user_input resp))
      | none => some (apology_msg, add_to_history s user_input apology_msg)
    | none => some (apology_msg, add_to_history s user_input apology_msg)

/-- All (intent, pattern Doc) pairs in catalog order then pattern order. -/
def intentPairs (intents : List Intent) : List (Intent × Doc) :=
  intents.flatMap (fun intent => intent.patterns_processed.map (fun p => (intent, p)))

/-- The scan step, viewed on (intent, pattern) pairs. -/
def pairStep (sim : Sim) (d : Doc) (best : ℚ × Option Intent) (q : Intent × Doc) :
    ℚ × Option Intent :=
  if sim d q.2 > best.1 then (sim d q.2, some q.1) else best

/-- Concrete test catalog entry with one pattern. -/
def greetingIntent : Intent := ⟨"greeting", ["hola"], ["hola"], some ["R1"]⟩

/-- Concrete fallback intent. -/
def fallbackIntent : Intent := ⟨"fallback", [], [], some ["FB"]⟩

/-- Second concrete intent, used for tie-breaking. -/
def secondIntent : Intent := ⟨"second", ["adios"], ["adios"], some ["R2"]⟩

/-- Similarity oracle that scores everything 0. -/
def simZero : Sim := fun _ _ => 0

/-- Similarity oracle that scores everything 3/10, below the threshold. -/
def simLow : Sim := fun _ _ => mkRat 3 10

/-- Similarity oracle that scores everything exactly at the threshold 2/5. -/
def simEq : Sim := fun _ _ => mkRat 2 5

/-- Similarity oracle that scores everything 1/2 (ties, above threshold). -/
def simTie : Sim := fun _ _ => mkRat 1 2

/-- Similarity oracle that only matches the plain input "hola" against the
pattern "hola"; any contextual concatenation scores 0. -/
def simPlain : Sim := fun a b => if a = "hola" ∧ b = "hola" then 1 else 0

/-- Session state with an empty history. -/
def stateEmptyHist : ChatbotState := ⟨[greetingIntent, fallbackIntent], 5, []⟩

/-- Session state with one prior turn in the history. -/
def stateOneTurn : ChatbotState := ⟨[greetingIntent, fallbackIntent], 5, [⟨"previo", "resp"⟩]⟩

/-- Session state with max_history 2 and a history already at capacity. -/
def stateCap2 : ChatbotState := ⟨[], 2, [⟨"u1", "b1"⟩, ⟨"u2", "b2"⟩]⟩

/-- Unfolding intentPairs over a cons cell. -/
theorem intentPairs_cons (i : Intent) (t : List Intent) :
    intentPairs (i :: t) = i.patterns_processed.map (fun p => (i, p)) ++ intentPairs t := by
  simp [intentPairs]

/-- The nested scan of find_most_similar_intent equals a single fold over the
flattened (intent, pattern) pairs in catalog order then pattern order. -/
theorem scanIntents_eq_pairs (sim : Sim) (d : Doc) (intents : List Intent) :
    scanIntents sim d intents
      = List.foldl (pairStep sim d) ((0 : ℚ), (none : Option Intent)) (intentPairs intents) := by
  suffices h : ∀ (l : List Intent) (b : ℚ × Option Intent),
      List.foldl
          (fun best intent => List.foldl (matchStep sim d intent) best intent.patterns_processed)
          b l
        = List.foldl (pairStep sim d) b (intentPairs l) from h intents _
  intro l
  induction l with
  | nil => intro b; rfl
  | cons i t ih =>
    intro b
    simp only [List.foldl_cons, intentPairs_cons, List.foldl_append]
    rw [ih]
    rw [List.foldl_map]
    rfl

/-- The running best similarity after one pair step is the max of the old
best and the new score. -/
theorem pairStep_fst (sim : Sim) (d : Doc) (b : ℚ × Option Intent) (q : Intent × Doc) :
    (pairStep sim d b q).1 = max b.1 (sim d q.2) := by
  unfold pairStep
  split
  · exact (max_eq_right (le_of_lt (by assumption))).symm
  · exact (max_eq_left (not_lt.mp (by assumption))).symm

/-- The final best similarity of the scan is the fold of max over all scores. -/
theorem foldl_pairStep_fst (sim : Sim) (d : Doc) :
    ∀ (qs : List (Intent × Doc)) (b : ℚ × Option Intent),
      (List.foldl (pairStep sim d) b qs).1
        = List.foldl (fun m q => max m (sim d q.2)) b.1 qs := by
  intro qs
  induction qs with
  | nil => intro b; rfl
  | cons q t ih =>
    intro b
    simp only [List.foldl_cons]
    rw [ih (pairStep sim d b q), pairStep_fst]

/-- The fold of max never drops below its start value. -/
theorem le_foldl_max (sim : Sim) (d : Doc) :
    ∀ (qs : List (Intent × Doc)) (m : ℚ),
      m ≤ List.foldl (fun acc q => max acc (sim d q.2)) m qs := by
  intro qs
  induction qs with
  | nil => intro m; exact le_refl m
  | cons q t ih =>
    intro m
    simp only [List.foldl_cons]
    exact le_trans (le_max_left _ _) (ih _)

/-- Every score in the list is bounded by the fold of max. -/
theorem mem_le_foldl_max (sim : Sim) (d : Doc) :
    ∀ (qs : List (Intent × Doc)) (m : ℚ) (q : Intent × Doc), q ∈ qs →
      sim d q.2 ≤ List.foldl (fun acc q => max acc (sim d q.2)) m qs := by
  intro qs
  induction qs with
  | nil => intro m q h; cases h
  | cons q0 t ih =>
    intro m q hq
    simp only [List.foldl_cons]
    rcases List.mem_cons.mp hq with h | h
    · subst h
      exact le_trans (le_max_right _ _) (le_foldl_max sim d t _)
    · exact ih _ q h

/-- When no remaining score strictly beats the running best, the scan
keeps the running pair untouched: a later equal score never replaces it. -/
theorem foldl_pairStep_stay (sim : Sim) (d : Doc) :
    ∀ (qs : List (Intent × Doc)) (b : ℚ × Option Intent),
      (∀ q ∈ qs, sim d q.2 ≤ b.1) → List.foldl (pairStep sim d) b qs = b := by
  intro qs
  induction qs with
  | nil => intro b _; rfl
  | cons q t ih =>
    intro b hle
    simp only [List.foldl_cons]
    have hstep : pairStep sim d b q = b := by
      unfold pairStep
      rw [if_neg (not_lt.mpr (hle q (List.mem_cons_self q t)))]
    rw [hstep]
    exact ih b (fun q2 hq2 => hle q2 (List.mem_cons_of_mem q hq2))

/-- Whenever the scan strictly improved on its start value, the recorded
intent is the one of the FIRST pair achieving the final best similarity. -/
theorem foldl_pairStep_find_first (sim : Sim) (d : Doc) :
    ∀ (qs : List (Intent × Doc)) (b : ℚ × Option Intent),
      b.1 < (List.foldl (pairStep sim d) b qs).1 →
      (List.foldl (pairStep sim d) b qs).2
        = (List.find?
            (fun q => decide (sim d q.2 = (List.foldl (pairStep sim d) b qs).1)) qs).map
            Prod.fst := by
  intro qs
  induction qs with
  | nil => intro b h; exact absurd h (lt_irrefl _)
  | cons q t ih =>
    intro b hlt
    simp only [List.foldl_cons] at hlt ⊢
    by_cases hq : sim d q.2 > b.1
    · have hb2 : pairStep sim d b q = (sim d q.2, some q.1) := by
        unfold pairStep
        rw [if_pos hq]
      simp only [hb2] at hlt ⊢
      have hle : sim d q.2 ≤ (List.foldl (pairStep sim d) (sim d q.2, some q.1) t).1 := by
        rw [foldl_pairStep_fst]
        exact le_foldl_max sim d t _
      rcases lt_or_eq_of_le hle with hstrict | heq
      · rw [ih (sim d q.2, some q.1) hstrict]
        rw [List.find?_cons_of_neg]
        simp only [decide_eq_true_eq]
        exact ne_of_lt hstrict
      · have hstay : List.foldl (pairStep sim d) (sim d q.2, some q.1) t
            = (sim d q.2, some q.1) := by
          apply foldl_pairStep_stay
          intro q2 hq2
          have hb := mem_le_foldl_max sim d t (sim d q.2) q2 hq2
          rw [← foldl_pairStep_fst sim d t (sim d q.2, some q.1)] at hb
          rw [← heq] at hb
          exact hb
        simp only [hstay]
        rw [List.find?_cons_of_pos]
        · rfl
        · simp
    · have hb2 : pairStep sim d b q = b := by
        unfold pairStep
        rw [if_neg hq]
      simp only [hb2] at hlt ⊢
      rw [ih b hlt]
      rw [List.find?_cons_of_neg]
      simp only [decide_eq_true_eq]
      exact ne_of_lt (lt_of_le_of_lt (not_lt.mp hq) hlt)

/-- The intent recorded by the scan, if any, names one of the scanned pairs. -/
theorem foldl_pairStep_snd_mem (sim : Sim) (d : Doc) :
    ∀ (qs : List (Intent × Doc)) (b : ℚ × Option Intent),
      (List.foldl (pairStep sim d) b qs).2 = b.2 ∨
        ∃ q ∈ qs, (List.foldl (pairStep sim d) b qs).2 = some q.1 := by
  intro qs
  induction qs with
  | nil => intro b; exact Or.inl rfl
  | cons q t ih =>
    intro b
    simp only [List.foldl_cons]
    by_cases hq : sim d q.2 > b.1
    · have hb2 : pairStep sim d b q = (sim d q.2, some q.1) := by
        unfold pairStep
        rw [if_pos hq]
      rw [hb2]
      rcases ih (sim d q.2, some q.1) with h | ⟨q2, hq2, h⟩
      · exact Or.inr ⟨q, List.mem_cons_self q t, h⟩
      · exact Or.inr ⟨q2, List.mem_cons_of_mem q hq2, h⟩
    · have hb2 : pairStep sim d b q = b := by
        unfold pairStep
        rw [if_neg hq]
      rw [hb2]
      rcases ih b with h | ⟨q2, hq2, h⟩
      · exact Or.inl h
      · exact Or.inr ⟨q2, List.mem_cons_of_mem q hq2, h⟩

/-- An intent recorded by the whole scan belongs to the catalog. -/
theorem scan_snd_mem (sim : Sim) (d : Doc) (intents : List Intent) (i : Intent)
    (h : (scanIntents sim d intents).2 = some i) : i ∈ intents := by
  rw [scanIntents_eq_pairs] at h
  rcases foldl_pairStep_snd_mem sim d (intentPairs intents) (0, none) with h0 | ⟨q, hq, hq2⟩
  · rw [h0] at h
    cases h
  · rw [hq2] at h
    have hqi : q.1 = i := by
      injection h
    obtain ⟨intent, hint, hq3⟩ := List.mem_flatMap.mp hq
    obtain ⟨p, _, hp⟩ := List.mem_map.mp hq3
    rw [← hqi, ← hp]
    exact hint

/-- When the best similarity is not strictly below the threshold, the
matcher returns the scan's best intent (the fallback path is skipped). -/
theorem find_eq_scan_of_le (sim : Sim) (intents : List Intent) (d : Doc)
    (h : similarity_threshold ≤ (scanIntents sim d intents).1) :
    find_most_similar_intent sim intents d = (scanIntents sim d intents).2 := by
  unfold find_most_similar_intent
  rw [if_neg (not_lt.mpr h)]

/-- When no intent is tagged fallback, the matcher returns the scan's best
intent whatever the best similarity is. -/
theorem find_eq_scan_of_no_fallback (sim : Sim) (intents : List Intent) (d : Doc)
    (hfb : ∀ intent ∈ intents, intent.tag ≠ "fallback") :
    find_most_similar_intent sim intents d = (scanIntents sim d intents).2 := by
  unfold find_most_similar_intent
  have h : List.find? (fun intent => intent.tag == "fallback") intents = none := by
    rw [List.find?_eq_none]
    intro x hx
    simpa using hfb x hx
  rw [h]
  split <;> rfl

/-- Any intent returned by find_most_similar_intent belongs to the catalog. -/
theorem find_most_similar_intent_mem (sim : Sim) (intents : List Intent) (d : Doc)
    (i : Intent) (h : find_most_similar_intent sim intents d = some i) : i ∈ intents := by
  unfold find_most_similar_intent at h
  split at h
  · cases hf : List.find? (fun intent => intent.tag == "fallback") intents with
    | some fb =>
      rw [hf] at h
      have hfb : fb = i := by injection h
      exact hfb ▸ List.mem_of_find?_eq_some hf
    | none =>
      rw [hf] at h
      exact scan_snd_mem sim d intents i h
  · exact scan_snd_mem sim d intents i h

/-- C5: find_most_similar_intent on an empty catalog is a total function
returning NoMatch (none), for every similarity oracle and every input. -/
theorem c5_empty_catalog (sim : Sim) (d : Doc) :
    find_most_similar_intent sim [] d = none := by
  simp [find_most_similar_intent, scanIntents]

/-- C3 counterexample: with every similarity exactly the threshold 2/5, the
best candidate scores exactly the threshold, yet find_most_similar_intent
returns the best intent (greeting), NOT the fallback: the code compares with
strict less-than, so equality is accepted, contradicting the claim that a
score equal to the threshold is rejected with the fallback path taken. -/
theorem c3_threshold_equality_cex :
    scanIntents simEq "hola" [greetingIntent, fallbackIntent]
        = (similarity_threshold, some greetingIntent) ∧
    find_most_similar_intent simEq [greetingIntent, fallbackIntent] "hola"
        = some greetingIntent ∧
    greetingIntent.tag ≠ "fallback" := by
  refine ⟨by decide, by decide, by decide⟩

/-- C3 amended: a best candidate whose similarity is exactly equal to the
threshold is ACCEPTED (the best intent is returned); the fallback path is
taken only when the best similarity is strictly below the threshold. -/
theorem c3_amended_equality_accepted (sim : Sim) (intents : List Intent) (d : Doc)
    (h : similarity_threshold ≤ (scanIntents sim d intents).1) :
    find_most_similar_intent sim intents d = (scanIntents sim d intents).2 :=
  find_eq_scan_of_le sim intents d h

/-- Witness for the amended C3, at a catalog whose best similarity is exactly
the threshold: the greeting intent is returned, not the fallback. -/
theorem c3_amended_witness :
    similarity_threshold ≤ (scanIntents simEq "hola" [greetingIntent, fallbackIntent]).1 ∧
    find_most_similar_intent simEq [greetingIntent, fallbackIntent] "hola"
      = (scanIntents simEq "hola" [greetingIntent, fallbackIntent]).2 :=
  ⟨by decide,
    c3_amended_equality_accepted simEq [greetingIntent, fallbackIntent] "hola" (by decide)⟩

/-- C4 counterexample: a catalog with no fallback tag whose best similarity
3/10 is below the threshold 2/5.  The claim says find_most_similar_intent
then returns NoMatch (None); the code instead falls through and returns the
below-threshold best intent. -/
theorem c4_below_threshold_cex :
    (scanIntents simLow "x" [greetingIntent]).1 < similarity_threshold ∧
    (∀ intent ∈ [greetingIntent], intent.tag ≠ "fallback") ∧
    find_most_similar_intent simLow [greetingIntent] "x" = some greetingIntent := by
  refine ⟨by decide, by decide, by decide⟩

/-- C4 amended: with no fallback tag in the catalog, find_most_similar_intent
returns the scan's best intent unchanged — the below-threshold best intent
when some pattern scored strictly above 0, and None only otherwise. -/
theorem c4_amended_no_fallback (sim : Sim) (intents : List Intent) (d : Doc)
    (hfb : ∀ intent ∈ intents, intent.tag ≠ "fallback") :
    find_most_similar_intent sim intents d = (scanIntents sim d intents).2 :=
  find_eq_scan_of_no_fallback sim intents d hfb

/-- Witness for the amended C4 at the concrete below-threshold catalog. -/
theorem c4_amended_witness :
    (∀ intent ∈ [greetingIntent], intent.tag ≠ "fallback") ∧
    find_most_similar_intent simLow [greetingIntent] "x"
      = (scanIntents simLow "x" [greetingIntent]).2 :=
  ⟨by decide, c4_amended_no_fallback simLow [greetingIntent] "x" (by decide)⟩

/-- C6: tie-break determinism.  When the best similarity clears the
threshold, find_most_similar_intent returns the intent owning the FIRST
pattern (catalog order, then pattern order) that achieves the maximal
similarity: a later pattern with an equal score never replaces the current
best (the scan only updates on a strictly greater score), and the result is
a pure function of the catalog, input and similarity oracle, hence identical
on every repetition. -/
theorem c6_first_seen_wins (sim : Sim) (intents : List Intent) (d : Doc)
    (h : similarity_threshold ≤ (scanIntents sim d intents).1) :
    find_most_similar_intent sim intents d
      = (List.find?
          (fun q => decide (sim d q.2 = (scanIntents sim d intents).1))
          (intentPairs intents)).map Prod.fst := by
  have h0 : (0 : ℚ) < (scanIntents sim d intents).1 :=
    lt_of_lt_of_le (by decide) h
  rw [find_eq_scan_of_le sim intents d h]
  have hpairs := scanIntents_eq_pairs sim d intents
  rw [hpairs] at h0 ⊢
  exact foldl_pairStep_find_first sim d (intentPairs intents) (0, none) h0

/-- Witness for C6 at a two-intent catalog where both patterns tie at 1/2:
the first intent in catalog order is returned. -/
theorem c6_witness :
    similarity_threshold ≤ (scanIntents simTie "x" [greetingIntent, secondIntent]).1 ∧
    find_most_similar_intent simTie [greetingIntent, secondIntent] "x"
        = (List.find?
            (fun q => decide (simTie "x" q.2 = (scanIntents simTie "x" [greetingIntent, secondIntent]).1))
            (intentPairs [greetingIntent, secondIntent])).map Prod.fst ∧
    find_most_similar_intent simTie [greetingIntent, secondIntent] "x" = some greetingIntent :=
  ⟨by decide, c6_first_seen_wins simTie [greetingIntent, secondIntent] "x" (by decide),
    by decide⟩

/-- C1, settled against the code: on the session with one prior turn and the
non-empty input "hola", the effective get_response (the later duplicate
definition, chatbot.py lines 184-211) returns the matched response and the
state COMPLETELY UNCHANGED — the history still holds exactly its single old
turn and no turn user-input/response was appended; the shadowed context-aware
definition (lines 84-113) appends exactly the one turn the claim describes. -/
theorem c1_no_turn_recorded :
    get_response simPlain 0 stateOneTurn "hola" = some ("R1", stateOneTurn) ∧
    stateOneTurn.conversation_history = [⟨"previo", "resp"⟩] ∧
    get_response_v1 simPlain 0 stateOneTurn "hola"
      = some ("FB",
          ⟨[greetingIntent, fallbackIntent], 5, [⟨"previo", "resp"⟩, ⟨"hola", "FB"⟩]⟩) := by
  refine ⟨by decide, by decide, by decide⟩

/-- C2, settled against the code: with a non-empty history the contextual
input differs from the plain input, and the matcher run on the contextual
input would select the fallback intent — yet the effective get_response
returns the response of the intent matched on the PLAIN processed input:
the context is ignored because the context-aware definition is shadowed. -/
theorem c2_context_ignored :
    stateOneTurn.conversation_history ≠ [] ∧
    preprocess_input (get_contextual_input stateOneTurn "hola") ≠ preprocess_input "hola" ∧
    find_most_similar_intent simPlain stateOneTurn.intents
        (preprocess_input (get_contextual_input stateOneTurn "hola")) = some fallbackIntent ∧
    find_most_similar_intent simPlain stateOneTurn.intents
        (preprocess_input "hola") = some greetingIntent ∧
    get_response simPlain 0 stateOneTurn "hola" = some ("R1", stateOneTurn) ∧
    greetingIntent.responses = some ["R1"] ∧
    fallbackIntent.responses = some ["FB"] := by
  refine ⟨by decide, by decide, by decide, by decide, by decide, by decide, by decide⟩

/-- C8 counterexample: the whitespace-only input " " is NOT short-circuited:
it is truthy in Python, so get_response runs the full pipeline and returns
the fallback intent's response, not the fixed prompt-to-retry message. -/
theorem c8_whitespace_cex :
    (" " : String) ≠ "" ∧
    get_response simZero 0 stateEmptyHist " " = some ("FB", stateEmptyHist) ∧
    ("FB" : String) ≠ prompt_msg := by
  refine ⟨by decide, by decide, by decide⟩

/-- C8 amended: only the EMPTY input string is short-circuited: get_response
then returns the fixed prompt-to-retry message with the session state
untouched, for every similarity oracle, choice index and state (matching
plays no part: the result does not depend on sim, r or the catalog). -/
theorem c8_amended_empty_shortcircuit (sim : Sim) (r : Nat) (s : ChatbotState) :
    get_response sim r s "" = some (prompt_msg, s) := rfl

/-- A deque append at capacity evicts exactly the oldest turn. -/
theorem appendBounded_at_capacity (n : Nat) (h : List Turn) (t : Turn)
    (hpos : 0 < n) (hcap : h.length = n) :
    appendBounded n h t = h.drop 1 ++ [t] := by
  unfold appendBounded
  rw [if_pos (by simp [hcap])]
  have h1 : (h ++ [t]).length - n = 1 := by simp [hcap]
  rw [h1]
  exact List.drop_append_of_le_length (by omega)

/-- The length after a deque append is min maxlen (old length + 1). -/
theorem appendBounded_length (n : Nat) (h : List Turn) (t : Turn) :
    (appendBounded n h t).length = min n (h.length + 1) := by
  unfold appendBounded
  split
  next hlt =>
    simp only [List.length_drop, List.length_append, List.length_cons, List.length_nil] at hlt ⊢
    omega
  next hge =>
    simp only [List.length_append, List.length_cons, List.length_nil] at hge ⊢
    omega

/-- Folding add_to_history over a batch of turns: the resulting history
length is min max_history (initial length + number appended), provided the
bound holds initially. -/
theorem foldl_add_to_history_length :
    ∀ (ts : List (String × String)) (st : ChatbotState),
      st.conversation_history.length ≤ st.max_history →
      (List.foldl (fun st2 p => add_to_history st2 p.1 p.2) st ts).conversation_history.length
        = min st.max_history (st.conversation_history.length + ts.length) := by
  intro ts
  induction ts with
  | nil =>
    intro st hle
    simp only [List.foldl_nil, List.length_nil, Nat.add_zero]
    omega
  | cons p t ih =>
    intro st hle
    simp only [List.foldl_cons, List.length_cons]
    have hlen : (add_to_history st p.1 p.2).conversation_history.length
        = min st.max_history (st.conversation_history.length + 1) :=
      appendBounded_length st.max_history st.conversation_history ⟨p.1, p.2⟩
    have hmax : (add_to_history st p.1 p.2).max_history = st.max_history := rfl
    rw [ih (add_to_history st p.1 p.2) (by rw [hlen, hmax]; omega)]
    rw [hlen, hmax]
    omega

/-- C9: the conversation history never exceeds max_history turns.
An append at capacity evicts exactly the oldest turn and keeps the rest in
insertion order (FIFO); the length stays at max_history; and appending
max_history + 1 turns into an empty history leaves exactly max_history. -/
theorem c9_history_bounded (s : ChatbotState) (u b : String) (ts : List (String × String))
    (hpos : 0 < s.max_history) (hcap : s.conversation_history.length = s.max_history)
    (hts : ts.length = s.max_history + 1) :
    (add_to_history s u b).conversation_history
        = s.conversation_history.drop 1 ++ [⟨u, b⟩] ∧
    (add_to_history s u b).conversation_history.length = s.max_history ∧
    (List.foldl (fun st2 p => add_to_history st2 p.1 p.2)
        { s with conversation_history := ([] : List Turn) } ts).conversation_history.length
      = s.max_history := by
  refine ⟨?_, ?_, ?_⟩
  · exact appendBounded_at_capacity s.max_history s.conversation_history ⟨u, b⟩ hpos hcap
  · have hlen : (add_to_history s u b).conversation_history.length
        = min s.max_history (s.conversation_history.length + 1) :=
      appendBounded_length s.max_history s.conversation_history ⟨u, b⟩
    rw [hlen, hcap]
    omega
  · rw [foldl_add_to_history_length ts { s with conversation_history := ([] : List Turn) }
      (by simp)]
    simp only [List.length_nil, Nat.zero_add]
    rw [hts]
    omega

/-- Witness for C9 at max_history = 2 with a full history and 3 appends. -/
theorem c9_witness :
    (add_to_history stateCap2 "u3" "b3").conversation_history
        = stateCap2.conversation_history.drop 1 ++ [⟨"u3", "b3"⟩] ∧
    (add_to_history stateCap2 "u3" "b3").conversation_history.length = stateCap2.max_history ∧
    (List.foldl (fun st2 p => add_to_history st2 p.1 p.2)
        { stateCap2 with conversation_history := ([] : List Turn) }
        [("x1", "y1"), ("x2", "y2"), ("x3", "y3")]).conversation_history.length
      = stateCap2.max_history :=
  c9_history_bounded stateCap2 "u3" "b3" [("x1", "y1"), ("x2", "y2"), ("x3", "y3")]
    (by decide) (by decide) (by decide)

/-- C10: whenever every catalog intent carries a responses key with a
non-empty list, get_response is total: it returns some string on every
input (no exception is raised), and in the error branch — no matched
intent — it returns the generic apology string with the state unchanged. -/
theorem c10_total_response (sim : Sim) (r : Nat) (s : ChatbotState) (ui : String)
    (hres : ∀ intent ∈ s.intents, ∃ rs, intent.responses = some rs ∧ rs ≠ []) :
    (∃ out, get_response sim r s ui = some out) ∧
    (find_most_similar_intent sim s.intents (preprocess_input ui) = none → ui ≠ "" →
      get_response sim r s ui = some (apology_msg, s)) := by
  constructor
  · by_cases hui : ui = ""
    · exact ⟨(prompt_msg, s), by rw [hui]; rfl⟩
    · cases hf : find_most_similar_intent sim s.intents (preprocess_input ui) with
      | none =>
        refine ⟨(apology_msg, s), ?_⟩
        simp [get_response, hui, hf]
      | some intent =>
        obtain ⟨rs, hrs, hne⟩ :=
          hres intent (find_most_similar_intent_mem sim s.intents (preprocess_input ui) intent hf)
        have hlen : 0 < rs.length := List.length_pos.mpr hne
        have hmod : r % rs.length < rs.length := Nat.mod_lt r hlen
        refine ⟨(rs.get ⟨r % rs.length, hmod⟩, s), ?_⟩
        simp only [get_response, if_neg hui, hf, hrs, randChoice]
        rw [List.getElem?_eq_getElem hmod]
        simp [List.get_eq_getElem]
  · intro hf hui
    simp [get_response, hui, hf]

/-- Witness for C10: the concrete catalog has non-empty responses
everywhere, and get_response answers the unmatched input "zzz". -/
theorem c10_witness :
    (∃ out, get_response simZero 0 stateEmptyHist "zzz" = some out) ∧
    (find_most_similar_intent simZero stateEmptyHist.intents (preprocess_input "zzz") = none →
      ("zzz" : String) ≠ "" →
      get_response simZero 0 stateEmptyHist "zzz" = some (apology_msg, stateEmptyHist)) :=
  c10_total_response simZero 0 stateEmptyHist "zzz" (by
    intro intent hint
    simp only [stateEmptyHist, List.mem_cons, List.not_mem_nil, or_false] at hint
    rcases hint with h | h
    · exact ⟨["R1"], by rw [h]; rfl, by decide⟩
    · exact ⟨["FB"], by rw [h]; rfl, by decide⟩)

/-- Characters surviving the strip step all come from the original list. -/
theorem mem_stripChars (l : List Char) (a : Char) (h : a ∈ stripChars l) : a ∈ l := by
  unfold stripChars at h
  rw [List.mem_reverse] at h
  have h2 := List.Sublist.mem h (List.dropWhile_sublist _)
  rw [List.mem_reverse] at h2
  exact List.Sublist.mem h2 (List.dropWhile_sublist _)

/-- The modelled lower-casing never outputs an ASCII upper-case letter. -/
theorem isUpperB_lowerChar (c : Char) : isUpperB (lowerChar c) = false := by
  unfold lowerChar
  split
  next hup =>
    obtain ⟨h1, h2⟩ := hup
    have key : ∀ n : Nat, 65 ≤ n → n ≤ 90 → isUpperB (Char.ofNat (n + 32)) = false := by
      intro n hn1 hn2
      interval_cases n <;> decide
    exact key c.toNat h1 h2
  next hnot =>
    cases hf : accentPairs.find? (fun p => p.1 == c) with
    | none =>
      simp only [hf, Option.map_none', Option.getD_none, isUpperB]
      by_cases h65 : 65 ≤ c.toNat
      · have h90 : ¬ c.toNat ≤ 90 := fun hcon => hnot ⟨h65, hcon⟩
        simp [h65, h90]
      · simp [h65]
    | some pr =>
      have hp := List.mem_of_find?_eq_some hf
      simp only [hf, Option.map_some', Option.getD_some]
      simp only [accentPairs, List.mem_cons, List.not_mem_nil, or_false] at hp
      rcases hp with h | h | h | h | h | h | h <;> rw [h] <;> decide

/-- The modelled NFD decomposition of a non-upper-case character never
outputs an ASCII upper-case letter. -/
theorem isUpperB_nfdChar (c : Char) (h : isUpperB c = false) :
    ∀ d ∈ nfdChar c, isUpperB d = false := by
  intro d hd
  unfold nfdChar at hd
  cases hf : nfdPairs.find? (fun p => p.1 == c) with
  | none =>
    rw [hf] at hd
    simp only [Option.map_none', Option.getD_none, List.mem_cons, List.not_mem_nil,
      or_false] at hd
    rw [hd]
    exact h
  | some pr =>
    rw [hf] at hd
    simp only [Option.map_some', Option.getD_some] at hd
    have hp := List.mem_of_find?_eq_some hf
    simp only [nfdPairs, List.mem_cons, List.not_mem_nil, or_false] at hp
    rcases hp with h2 | h2 | h2 | h2 | h2 | h2 | h2 <;> rw [h2] at hd <;>
      fin_cases hd <;> decide

/-- Every character of the normalized text is alphanumeric or whitespace,
is not a combining mark, and is not an upper-case letter. -/
theorem preprocess_out_chars (s : String) :
    ∀ c ∈ (preprocess_text s).data,
      (isAlnumB c || isSpaceB c) = true ∧ isMnB c = false ∧ isUpperB c = false := by
  intro c hc
  obtain ⟨hc1, hpred⟩ := List.mem_filter.mp hc
  obtain ⟨hc2, hmn⟩ := List.mem_filter.mp hc1
  obtain ⟨d, hd, hcd⟩ := List.mem_flatMap.mp hc2
  have hd2 := mem_stripChars _ _ hd
  obtain ⟨e, _, he⟩ := List.mem_map.mp hd2
  refine ⟨hpred, ?_, ?_⟩
  · simpa using hmn
  · exact isUpperB_nfdChar d (he ▸ isUpperB_lowerChar e) c hcd

/-- Stripping is insensitive to an extra leading space. -/
theorem stripChars_cons_space (l : List Char) : stripChars (' ' :: l) = stripChars l := by
  unfold stripChars
  rw [List.dropWhile_cons, if_pos (by decide)]

/-- Stripping is insensitive to an extra trailing space. -/
theorem stripChars_append_space (l : List Char) : stripChars (l ++ [' ']) = stripChars l := by
  by_cases he : (List.dropWhile isSpaceB l).isEmpty
  · unfold stripChars
    rw [List.dropWhile_append, if_pos he]
    rw [List.isEmpty_iff] at he
    rw [he]
    rfl
  · unfold stripChars
    rw [List.dropWhile_append, if_neg he]
    rw [List.reverse_append]
    show ((' ' :: (List.dropWhile isSpaceB l).reverse).dropWhile isSpaceB).reverse = _
    rw [List.dropWhile_cons]
    rw [if_pos (by decide : isSpaceB ' ' = true)]

/-- Normalization ignores a leading space of the raw input. -/
theorem preprocess_text_space_left (s : String) :
    preprocess_text (" " ++ s) = preprocess_text s := by
  unfold preprocess_text
  have h : (" " ++ s).data = ' ' :: s.data := by
    rw [String.data_append]
    rfl
  rw [h, List.map_cons, show lowerChar ' ' = ' ' from by decide, stripChars_cons_space]

/-- Normalization ignores a trailing space of the raw input. -/
theorem preprocess_text_space_right (s : String) :
    preprocess_text (s ++ " ") = preprocess_text s := by
  unfold preprocess_text
  have h : (s ++ " ").data = s.data ++ [' '] := by
    rw [String.data_append]
  rw [h, List.map_append, List.map_cons, List.map_nil,
    show lowerChar ' ' = ' ' from by decide, stripChars_append_space]

/-- C7: preprocess_input is a total pure function on strings (determinism
and non-failure are inherent in it being a Lean function).  It maps the
empty string to the empty string; it lower-cases and strips diacritics
("Café" becomes "cafe"); leading/trailing whitespace is stripped (an added
boundary space never changes the result); and every character of the output
is alphanumeric or whitespace, never a combining mark and never an
upper-case letter. -/
theorem c7_preprocess_normalizes :
    preprocess_input "" = "" ∧
    preprocess_input "Café" = "cafe" ∧
    (∀ s : String, preprocess_input (" " ++ s) = preprocess_input s ∧
      preprocess_input (s ++ " ") = preprocess_input s) ∧
    (∀ s : String, ∀ c ∈ (preprocess_input s).data,
      (isAlnumB c || isSpaceB c) = true ∧ isMnB c = false ∧ isUpperB c = false) := by
  refine ⟨by decide, by decide, ?_, ?_⟩
  · intro s
    exact ⟨preprocess_text_space_left s, preprocess_text_space_right s⟩
  · intro s c hc
    exact preprocess_out_chars s c hc

/-- Witness for C7, instantiating the character property on the normalized
form of "Hola". -/
theorem c7_witness :
    (isAlnumB 'h' || isSpaceB 'h') = true ∧ isMnB 'h' = false ∧ isUpperB 'h' = false :=
  c7_preprocess_normalizes.2.2.2 "Hola" 'h' (by decide)

end BizChat
